import Mathlib

/-!
Verification development for the website-autobuilder generation core.

The TypeScript sources are embedded shallowly: JavaScript strings become
`List Char` (wrapped in `String` at the interfaces), the regular-expression
based text transforms are implemented as explicit scanners that mirror the
semantics of the concrete regexes used by the source (leftmost match, lazy
or greedy quantifiers resolved as the concrete pattern forces them, global
replacement continuing after each match), and `JSON.parse` is modelled by an
executable recursive-descent parser for the JSON grammar.
-/

/-! ## Character and string utilities (JavaScript semantics) -/

/-- JavaScript whitespace, the character class `\s` of JS regexes and the set
removed by `String.prototype.trim`: tab, LF, VT, FF, CR, space, NBSP, and the
Unicode space separators plus BOM. -/
def isWsJS (c : Char) : Bool :=
  c.val == 0x09 || c.val == 0x0A || c.val == 0x0B || c.val == 0x0C ||
  c.val == 0x0D || c.val == 0x20 || c.val == 0xA0 || c.val == 0x1680 ||
  (0x2000 ≤ c.val && c.val ≤ 0x200A) || c.val == 0x2028 || c.val == 0x2029 ||
  c.val == 0x202F || c.val == 0x205F || c.val == 0x3000 || c.val == 0xFEFF

/-- ASCII-only lowercasing, enough for the `/i` flag on the ASCII patterns the
source uses. -/
def lcChar (c : Char) : Char :=
  if 'A' ≤ c ∧ c ≤ 'Z' then Char.ofNat (c.toNat + 32) else c

/-- Case-insensitive character comparison (ASCII fold). -/
def ciEq (a b : Char) : Bool := lcChar a == lcChar b

/-- Does `cs` start with `pat`?  `ci` selects case-insensitive comparison. -/
def headMatches (ci : Bool) : List Char → List Char → Bool
  | [], _ => true
  | _ :: _, [] => false
  | p :: ps, c :: cs => (if ci then ciEq p c else p == c) && headMatches ci ps cs

/-- Index of the leftmost occurrence of `pat` in `cs` (regex-style scan). -/
def findSub (ci : Bool) (pat : List Char) : List Char → Option Nat
  | [] => if headMatches ci pat [] then some 0 else none
  | c :: cs =>
    if headMatches ci pat (c :: cs) then some 0
    else (findSub ci pat cs).map (· + 1)

/-- Substring containment test. -/
def containsSub (ci : Bool) (pat cs : List Char) : Bool :=
  (findSub ci pat cs).isSome

/-- Length of the maximal leading run of characters satisfying `p`. -/
def countLeading (p : Char → Bool) : List Char → Nat
  | [] => 0
  | c :: cs => if p c then countLeading p cs + 1 else 0

/-- Drop leading JavaScript whitespace. -/
def dropWsJS (cs : List Char) : List Char := cs.dropWhile isWsJS

/-- Model of `String.prototype.trim`: strip JavaScript whitespace from both ends. -/
def trimJS (cs : List Char) : List Char :=
  ((cs.dropWhile isWsJS).reverse.dropWhile isWsJS).reverse

/-- String-level wrapper of `trimJS`. -/
def trimS (s : String) : String := String.mk (trimJS s.data)

/-- Split a character list at every `'\n'`; the final element is the part
after the last newline (so the result is always non-empty). -/
def splitNl : List Char → List (List Char)
  | [] => [[]]
  | c :: cs =>
    if c == '\n' then [] :: splitNl cs
    else
      match splitNl cs with
      | [] => [[c]]
      | s :: ss => (c :: s) :: ss

/-! ## Thinking Extractor (`src/app/scripts/stripThinking.ts`) -/

/-- Model of the call `m.replace` deleting every think tag: delete every `<think>` / `</think>` tag,
scanning left to right and continuing after each deleted tag. -/
def stripThinkTags : Nat → List Char → List Char
  | 0, cs => cs
  | fuel + 1, cs =>
    if headMatches true "</think>".data cs then stripThinkTags fuel (cs.drop 8)
    else if headMatches true "<think>".data cs then stripThinkTags fuel (cs.drop 7)
    else
      match cs with
      | [] => []
      | c :: rest => c :: stripThinkTags fuel rest

/-- The `collect` closure of `stripThinking`: trim the captured reasoning
text and keep it only when non-empty. -/
def collectOpt (raw : List Char) : List String :=
  let trimmed := trimJS raw
  if trimmed.isEmpty then [] else [String.mk trimmed]

/-- Pass 1 of `stripThinking`: `working.replace(/<think>[\s\S]*?<\/think>/gi, …)`.
A match starts at the leftmost `<think>` and ends at the earliest following
`</think>` (lazy body); the matched text, with all think tags deleted and
trimmed, is collected when non-empty; scanning resumes after the match. -/
def thinkPassGo : Nat → List Char → List Char × List String
  | 0, cs => (cs, [])
  | fuel + 1, cs =>
    match findSub true "<think>".data cs with
    | none => (cs, [])
    | some i =>
      let rest := cs.drop (i + 7)
      match findSub true "</think>".data rest with
      | none => (cs, [])
      | some k =>
        let m := (cs.drop i).take (7 + k + 8)
        let (r, ts) := thinkPassGo fuel (rest.drop (k + 8))
        (cs.take i ++ r, collectOpt (stripThinkTags (m.length + 1) m) ++ ts)

/-- Pass 1 entry point. -/
def thinkPass (cs : List Char) : List Char × List String :=
  thinkPassGo (cs.length + 1) cs

/-- Delete the first match of the regex "one or more dashes then `>`": scan for a
dash run; if its maximal extent is followed by `>`, delete run and `>`,
otherwise continue after the run. -/
def dropFirstDashGt : Nat → List Char → List Char
  | 0, cs => cs
  | fuel + 1, cs =>
    match cs with
    | [] => []
    | c :: rest =>
      if c == '-' then
        let n := countLeading (· == '-') (c :: rest)
        match (c :: rest).drop n with
        | '>' :: tail => tail
        | _ => ((c :: rest).take n) ++ dropFirstDashGt fuel ((c :: rest).drop n)
      else c :: dropFirstDashGt fuel rest

/-- The thought text extracted from a matched think comment `m`:
first `m.replace` deletes the prefix `<!` + dashes + whitespace + `think` +
optional colon + whitespace (that regex always matches at the start of `m`);
the second `m.replace` deletes the first dash-run-plus-`>`. -/
def commentThought (m : List Char) : List Char :=
  -- strip the leading `<!` plus dash run, whitespace, `think`, `:?`, `\s*`
  let afterBang := m.drop 2
  let d := countLeading (· == '-') afterBang
  let afterDash := afterBang.drop d
  let w := countLeading isWsJS afterDash
  let afterThink := (afterDash.drop w).drop 5
  let afterColon := match afterThink with
    | ':' :: t => t
    | t => t
  let r1 := afterColon.drop (countLeading isWsJS afterColon)
  dropFirstDashGt (r1.length + 1) r1

/-- Attempt to match `/<!--\s*think[\s\S]*?-->/i` at the start of `cs`,
returning the match length on success (the body is lazy, so it ends at the
earliest `-->`). -/
def commentMatchAt (cs : List Char) : Option Nat :=
  if headMatches false "<!--".data cs then
    let rest := cs.drop 4
    let w := countLeading isWsJS rest
    if headMatches true "think".data (rest.drop w) then
      match findSub false "-->".data ((rest.drop w).drop 5) with
      | some q => some (4 + w + 5 + q + 3)
      | none => none
    else none
  else none

/-- Pass 2 of `stripThinking`:
`working.replace(/<!--\s*think[\s\S]*?-->/gi, …)` with the collected thought
computed by `commentThought`, trimmed and kept when non-empty. -/
def commentPassGo : Nat → List Char → List Char × List String
  | 0, cs => (cs, [])
  | fuel + 1, cs =>
    match cs with
    | [] => ([], [])
    | c :: rest =>
      match commentMatchAt cs with
      | some len =>
        let (r, ts) := commentPassGo fuel (cs.drop len)
        (r, collectOpt (commentThought (cs.take len)) ++ ts)
      | none =>
        let (r, ts) := commentPassGo fuel rest
        (c :: r, ts)

/-- Pass 2 entry point. -/
def commentPass (cs : List Char) : List Char × List String :=
  commentPassGo (cs.length + 1) cs

/-- Characters the JS regex `.` does not match. -/
def isDotExcluded (c : Char) : Bool :=
  c == '\n' || c == '\r' || c.val == 0x2028 || c.val == 0x2029

/-- Try to match `\s*(Thought|Thinking|Reasoning)\s*:(.*)(?=\n|$)` at the
start of `cs` (the `(?:^|\n)` anchor is handled by the caller).  Returns the
consumed length together with the collected thought
`` `${label}: ${rest}` `` (trimmed).  Each label alternative is tried in
order, with its full continuation, as regex backtracking does. -/
def tryLabelAt (lab : String) (cs : List Char) : Option (Nat × List Char) :=
  let w := countLeading isWsJS cs
  let afterW := cs.drop w
  if headMatches true lab.data afterW then
    let labelText := afterW.take lab.length
    let afterL := afterW.drop lab.length
    let w2 := countLeading isWsJS afterL
    match afterL.drop w2 with
    | ':' :: afterColon =>
      let restLine := afterColon.takeWhile (fun c => !(isDotExcluded c))
      let following := afterColon.drop restLine.length
      if following.isEmpty || following.headD ' ' == '\n' then
        some (w + lab.length + w2 + 1 + restLine.length,
              labelText ++ ':' :: ' ' :: restLine)
      else none
    | _ => none
  else none

/-- The three label alternatives, tried in the alternation order of the regex,
each with its full continuation as backtracking does. -/
def labelLineAt (cs : List Char) : Option (Nat × List Char) :=
  match tryLabelAt "Thought" cs with
  | some r => some r
  | none =>
    match tryLabelAt "Thinking" cs with
    | some r => some r
    | none => tryLabelAt "Reasoning" cs

/-- Pass 3 of `stripThinking`:
`working.replace(/(?:^|\n)\s*(Thought|Thinking|Reasoning)\s*:(.*)(?=\n|$)/gi, …)`.
`atStart` is true only at position 0 (the `^` alternative); afterwards a match
must consume a literal `'\n'`. -/
def thoughtPassGo : Nat → Bool → List Char → List Char × List String
  | 0, _, cs => (cs, [])
  | fuel + 1, true, cs =>
    match labelLineAt cs with
    | some lt =>
      let (r, ts) := thoughtPassGo fuel false (cs.drop lt.1)
      (r, collectOpt lt.2 ++ ts)
    | none => thoughtPassGo fuel false cs
  | fuel + 1, false, cs =>
    match cs with
    | [] => ([], [])
    | c :: rest =>
      if c == '\n' then
        match labelLineAt rest with
        | some lt =>
          let (r, ts) := thoughtPassGo fuel false (rest.drop lt.1)
          (r, collectOpt lt.2 ++ ts)
        | none =>
          let (r, ts) := thoughtPassGo fuel false rest
          (c :: r, ts)
      else
        let (r, ts) := thoughtPassGo fuel false rest
        (c :: r, ts)

/-- Pass 3 entry point. -/
def thoughtPass (cs : List Char) : List Char × List String :=
  thoughtPassGo (cs.length + 2) true cs

/-- Attempt to match ``/```(?:json|html)?\s*([\s\S]*?)```/i`` at the start of
`cs`: returns (total length, inner capture).  The optional language tag is
greedy and the body lazy (earliest closing fence). -/
def fenceMatchAt (cs : List Char) : Option (Nat × List Char) :=
  if headMatches false "```".data cs then
    let rest := cs.drop 3
    let langLen :=
      if headMatches true "json".data rest then 4
      else if headMatches true "html".data rest then 4
      else 0
    let rest2 := rest.drop langLen
    let w := countLeading isWsJS rest2
    let body := rest2.drop w
    match findSub false "```".data body with
    | some j => some (3 + langLen + w + j + 3, body.take j)
    | none => none
  else none

/-- Is there any fence match in `cs` (the `fence.test(working)` guard)? -/
def fenceFound : Nat → List Char → Bool
  | 0, _ => false
  | fuel + 1, cs =>
    match cs with
    | [] => false
    | _ :: rest =>
      match fenceMatchAt cs with
      | some _ => true
      | none => fenceFound fuel rest

/-- Pass 4 of `stripThinking`: unwrap code fences, replacing each match with
its inner capture followed by a newline. -/
def fencePassGo : Nat → List Char → List Char
  | 0, cs => cs
  | fuel + 1, cs =>
    match cs with
    | [] => []
    | c :: rest =>
      match fenceMatchAt cs with
      | some (len, inner) => inner ++ '\n' :: fencePassGo fuel (cs.drop len)
      | none => c :: fencePassGo fuel rest

/-- Pass 4 entry point, with the guard `if (fence.test(working))` from the source. -/
def fencePass (cs : List Char) : List Char :=
  if fenceFound (cs.length + 1) cs then fencePassGo (cs.length + 1) cs else cs

/-- Result record of the Thinking Extractor. -/
structure ThinkingExtraction where
  cleaned : String
  thoughts : List String
deriving DecidableEq, Repr

/-- The function `stripThinking` from `src/app/scripts/stripThinking.ts`: the three
reasoning-removal passes in priority order, then fence unwrapping, then a
final trim; thoughts accumulate in pass order. -/
def stripThinking (input : String) : ThinkingExtraction :=
  let (w1, t1) := thinkPass input.data
  let (w2, t2) := commentPass w1
  let (w3, t3) := thoughtPass w2
  let w4 := fencePass w3
  { cleaned := String.mk (trimJS w4), thoughts := t1 ++ t2 ++ t3 }

/-! ## A model of `JSON.parse` -/

/-- JSON values as produced by `JSON.parse`.  Numbers keep their source
token (the claims under study never need their numeric value beyond a
zero test), objects keep fields in source order. -/
inductive JsVal where
  | null : JsVal
  | bool (b : Bool) : JsVal
  | num (raw : String) : JsVal
  | str (s : String) : JsVal
  | arr (elems : List JsVal) : JsVal
  | obj (fields : List (String × JsVal)) : JsVal

/-- JSON whitespace (`ws` in ECMA-404 / `JSON.parse`): space, tab, LF, CR. -/
def isWsJson (c : Char) : Bool :=
  c == ' ' || c == '\t' || c == '\n' || c == '\r'

/-- Skip JSON whitespace. -/
def skipWsJson (cs : List Char) : List Char := cs.dropWhile isWsJson

/-- Decimal digit test. -/
def isDigitCh (c : Char) : Bool := '0' ≤ c && c ≤ '9'

/-- Hex digit value. -/
def hexVal (c : Char) : Option Nat :=
  if '0' ≤ c ∧ c ≤ '9' then some (c.toNat - '0'.toNat)
  else if 'a' ≤ c ∧ c ≤ 'f' then some (c.toNat - 'a'.toNat + 10)
  else if 'A' ≤ c ∧ c ≤ 'F' then some (c.toNat - 'A'.toNat + 10)
  else none

/-- Parse the body of a JSON string after the opening quote; returns the
decoded characters and the remainder after the closing quote.  `\uXXXX`
escapes are decoded with `Char.ofNat` (lone surrogates, which `JSON.parse`
would keep, fall back to the default of `Char.ofNat` — irrelevant for the inputs
of this development). -/
def parseStrBody : Nat → List Char → Option (List Char × List Char)
  | 0, _ => none
  | _ + 1, [] => none
  | fuel + 1, c :: cs =>
    if c == '\x22' then some ([], cs)
    else if c == '\\' then
      match cs with
      | '\x22' :: rest => (parseStrBody fuel rest).map (fun (s, r) => ('\x22' :: s, r))
      | '\\' :: rest => (parseStrBody fuel rest).map (fun (s, r) => ('\\' :: s, r))
      | '/' :: rest => (parseStrBody fuel rest).map (fun (s, r) => ('/' :: s, r))
      | 'b' :: rest => (parseStrBody fuel rest).map (fun (s, r) => ('\x08' :: s, r))
      | 'f' :: rest => (parseStrBody fuel rest).map (fun (s, r) => ('\x0c' :: s, r))
      | 'n' :: rest => (parseStrBody fuel rest).map (fun (s, r) => ('\n' :: s, r))
      | 'r' :: rest => (parseStrBody fuel rest).map (fun (s, r) => ('\r' :: s, r))
      | 't' :: rest => (parseStrBody fuel rest).map (fun (s, r) => ('\t' :: s, r))
      | 'u' :: h1 :: h2 :: h3 :: h4 :: rest =>
        match hexVal h1, hexVal h2, hexVal h3, hexVal h4 with
        | some a, some b, some d, some e =>
          (parseStrBody fuel rest).map
            (fun (s, r) => (Char.ofNat (a * 4096 + b * 256 + d * 16 + e) :: s, r))
        | _, _, _, _ => none
      | _ => none
    else if c.val < 0x20 then none
    else (parseStrBody fuel cs).map (fun (s, r) => (c :: s, r))

/-- Parse a JSON number token (already known to start one); returns the raw
token and the remainder. -/
def parseNumTok (cs : List Char) : Option (List Char × List Char) :=
  let (sign, cs1) := match cs with
    | '-' :: t => (['-'], t)
    | t => (([] : List Char), t)
  let intDigits := cs1.takeWhile isDigitCh
  let okInt : Bool :=
    match intDigits with
    | [] => false
    | ['0'] => true
    | '0' :: _ => false       -- leading zero not allowed
    | _ => true
  if !okInt then none else
  let cs2 := cs1.drop intDigits.length
  let (fracPart, cs3) := match cs2 with
    | '.' :: t =>
      let ds := t.takeWhile isDigitCh
      if ds.isEmpty then (none, cs2) else (some ('.' :: ds), t.drop ds.length)
    | _ => (none, cs2)
  match cs2, fracPart with
  | '.' :: _, none => none    -- a dot must be followed by digits
  | _, _ =>
  let (expPart, cs4) := match cs3 with
    | e :: t =>
      if e == 'e' || e == 'E' then
        let (es, t2) := match t with
          | s :: t2 => if s == '+' || s == '-' then ([e, s], t2) else ([e], t)
          | [] => ([e], t)
        let ds := t2.takeWhile isDigitCh
        if ds.isEmpty then (none, cs3) else (some (es ++ ds), t2.drop ds.length)
      else (none, cs3)
    | [] => (none, cs3)
  match cs3, expPart with
  | e :: _, none =>
    if e == 'e' || e == 'E' then none    -- an exponent marker must be completed
    else some (sign ++ intDigits ++ (fracPart.getD []) , cs3)
  | _, _ =>
    some (sign ++ intDigits ++ (fracPart.getD []) ++ (expPart.getD []), cs4)

mutual

/-- Parse one JSON value (leading whitespace allowed). -/
def parseVal : Nat → List Char → Option (JsVal × List Char)
  | 0, _ => none
  | fuel + 1, cs =>
    match skipWsJson cs with
    | [] => none
    | c :: rest =>
      if c == '{' then
        match skipWsJson rest with
        | '}' :: r2 => some (.obj [], r2)
        | r2 => (parseMembers fuel r2).map (fun (fs, r) => (.obj fs, r))
      else if c == '[' then
        match skipWsJson rest with
        | ']' :: r2 => some (.arr [], r2)
        | r2 => (parseElems fuel r2).map (fun (es, r) => (.arr es, r))
      else if c == '\x22' then
        (parseStrBody (rest.length + 1) rest).map
          (fun (s, r) => (.str (String.mk s), r))
      else if headMatches false "true".data (c :: rest) then
        some (.bool true, (c :: rest).drop 4)
      else if headMatches false "false".data (c :: rest) then
        some (.bool false, (c :: rest).drop 5)
      else if headMatches false "null".data (c :: rest) then
        some (.null, (c :: rest).drop 4)
      else if c == '-' || isDigitCh c then
        (parseNumTok (c :: rest)).map (fun (tok, r) => (.num (String.mk tok), r))
      else none

/-- Parse array elements up to and including the closing `]`. -/
def parseElems : Nat → List Char → Option (List JsVal × List Char)
  | 0, _ => none
  | fuel + 1, cs =>
    match parseVal fuel cs with
    | none => none
    | some (v, r) =>
      match skipWsJson r with
      | ']' :: r2 => some ([v], r2)
      | ',' :: r2 =>
        (parseElems fuel r2).map (fun (vs, r3) => (v :: vs, r3))
      | _ => none

/-- Parse object members up to and including the closing `}`. -/
def parseMembers : Nat → List Char → Option (List (String × JsVal) × List Char)
  | 0, _ => none
  | fuel + 1, cs =>
    match skipWsJson cs with
    | '\x22' :: r =>
      match parseStrBody (r.length + 1) r with
      | none => none
      | some (k, r1) =>
        match skipWsJson r1 with
        | ':' :: r2 =>
          match parseVal fuel r2 with
          | none => none
          | some (v, r3) =>
            match skipWsJson r3 with
            | '}' :: r4 => some ([(String.mk k, v)], r4)
            | ',' :: r4 =>
              (parseMembers fuel r4).map (fun (fs, r5) => ((String.mk k, v) :: fs, r5))
            | _ => none
        | _ => none
    | _ => none

end

/-- Model of `JSON.parse` as a total function: `some` on success, `none` when the
original would throw a `SyntaxError`. -/
def jsonParse (s : String) : Option JsVal :=
  match parseVal (2 * s.length + 8) s.data with
  | some (v, rest) => if (skipWsJson rest).isEmpty then some v else none
  | none => none

/-- Does `JSON.parse` succeed on `s`? -/
def jsonParseOk (s : String) : Bool := (jsonParse s).isSome

/-! ## JavaScript value helpers -/

/-- Property access `v.k` (and `v?.k`, since `none` is produced for every
non-object): `some` for a present object field (later duplicate wins, as in
JS), `none` for `undefined`. -/
def jsField (v : JsVal) (k : String) : Option JsVal :=
  match v with
  | .obj fs => fs.foldl (fun acc kv => if kv.1 == k then some kv.2 else acc) none
  | _ => none

/-- Is the raw JSON number token the number zero (`0`, `-0`, `0.000`, `0e9`…)?
True iff every mantissa digit is `0`. -/
def numTokIsZero (raw : String) : Bool :=
  let mantissa := raw.data.takeWhile (fun c => !(c == 'e' || c == 'E'))
  mantissa.all (fun c => c == '0' || c == '-' || c == '.')

/-- JavaScript truthiness of a parsed JSON value. -/
def jsTruthy (v : JsVal) : Bool :=
  match v with
  | .null => false
  | .bool b => b
  | .num raw => !(numTokIsZero raw)
  | .str s => !(s.isEmpty)
  | .arr _ => true
  | .obj _ => true

/-- Truthiness through optional chaining (`undefined` is falsy). -/
def jsTruthyOpt (v : Option JsVal) : Bool :=
  match v with
  | none => false
  | some j => jsTruthy j

/-- The `length` property of a parsed JSON value: array length, string
length, the own `length` field of an object, otherwise `undefined`. -/
def jsLengthProp (v : JsVal) : Option JsVal :=
  match v with
  | .arr l => some (.num (toString l.length))
  | .str s => some (.num (toString s.length))
  | .obj _ => jsField v "length"
  | _ => none

/-! ## Structural Validator (`src/app/autobuilder/page.tsx`, `VALIDATION_RULES`
and `validateHtml`) -/

/-- Test for the regex `<TAG[\s>]` (case-insensitive): the literal tag opener
followed by whitespace or `>`. -/
def hasTagWsGt (tag : String) : List Char → Bool
  | [] => false
  | c :: cs =>
    (headMatches true ('<' :: tag.data) (c :: cs) &&
      (match (c :: cs).drop (tag.length + 1) with
       | [] => false
       | d :: _ => isWsJS d || d == '>')) ||
    hasTagWsGt tag cs

/-- Test for `/<title>[^<]{1,100}<\/title>/i`: after a `<title>`, the run of
non-`<` characters must have length 1..100 and be followed by `</title>`. -/
def hasTitleMatch : List Char → Bool
  | [] => false
  | c :: cs =>
    (headMatches true "<title>".data (c :: cs) &&
      (let body := (c :: cs).drop 7
       let d := countLeading (· != '<') body
       decide (1 ≤ d ∧ d ≤ 100) && headMatches true "</title>".data (body.drop d))) ||
    hasTitleMatch cs

/-- After the quote character, match the `http` scheme with optional `s` and the separator, case-insensitively. -/
def httpAfterQuote (cs : List Char) : Bool :=
  headMatches true "http".data cs &&
    (headMatches true "s://".data (cs.drop 4) || headMatches false "://".data (cs.drop 4))

/-- Scan the region after `<script` for the external-src pattern (one or more non-gt characters, then `src=`, a quote, and an http or https scheme):
at least one non-`>` character, then the `src` attribute pattern; the scan
stops at the first `>`. -/
def scriptSrcScan : Bool → List Char → Bool
  | _, [] => false
  | consumedSome, c :: cs =>
    if consumedSome && headMatches true "src=".data (c :: cs) &&
        (match (c :: cs).drop 4 with
         | q :: rest => (q == '\x22' || q == '\x27') && httpAfterQuote rest
         | [] => false) then
      true
    else if c == '>' then false
    else scriptSrcScan true cs

/-- Test for the full external-script regex of the source. -/
def hasExternalScript : List Char → Bool
  | [] => false
  | c :: cs =>
    (headMatches true "<script".data (c :: cs) && scriptSrcScan false ((c :: cs).drop 7)) ||
    hasExternalScript cs

/-- A validation rule: a check plus the issue string pushed when it fails. -/
structure ValidationRule where
  check : String → Bool
  issue : String

/-- The list `VALIDATION_RULES` from the source, in their fixed order. -/
def VALIDATION_RULES : List ValidationRule :=
  [ { check := fun s => hasTagWsGt "html" s.data, issue := "Missing <html> tag." },
    { check := fun s => hasTagWsGt "head" s.data, issue := "Missing <head> tag." },
    { check := fun s => hasTagWsGt "body" s.data, issue := "Missing <body> tag." },
    { check := fun s => hasTitleMatch s.data, issue := "Missing <title> tag." } ]

/-- The inline fifth check of `validateHtml`, expressed as a rule so the
fixed evaluation order (html, head, body, title, external-script) can be
stated as one rule list. -/
def externalScriptRule : ValidationRule :=
  { check := fun s => !(hasExternalScript s.data),
    issue := "External script src detected — must be self-contained." }

/-- Result of `validateHtml`. -/
structure ValidationOutcome where
  valid : Bool
  issues : List String
deriving DecidableEq, Repr

/-- The function `validateHtml` from the source: push one issue per failing rule in rule
order, then the external-script issue; `valid` iff no issues. -/
def validateHtml (html : String) : ValidationOutcome :=
  let issues := VALIDATION_RULES.foldl
    (fun acc r => if r.check html then acc else acc ++ [r.issue]) []
  let issues := if hasExternalScript html.data then
      issues ++ [externalScriptRule.issue]
    else issues
  { valid := issues.isEmpty, issues := issues }

/-! ## `extractJsonObject` (`src/app/scripts/stripThinking.ts`) -/

/-- Model of the leading-fence replace: strip one leading fence marker
and an optional `json` tag, anchored at the start. -/
def stripLeadTicks (cs : List Char) : List Char :=
  if headMatches false "```".data cs then
    if headMatches true "json".data (cs.drop 3) then cs.drop 7 else cs.drop 3
  else cs

/-- Model of the trailing-fence replace: strip one trailing fence marker. -/
def stripTailTicks (cs : List Char) : List Char :=
  if headMatches false "```".data (cs.drop (cs.length - 3)) && decide (3 ≤ cs.length) then
    cs.take (cs.length - 3)
  else cs

/-- Index of the first occurrence of a character. -/
def idxOfCh (c : Char) : List Char → Option Nat
  | [] => none
  | d :: ds => if d == c then some 0 else (idxOfCh c ds).map (· + 1)

/-- Index of the last occurrence of a character. -/
def lastIdxOfCh (c : Char) (cs : List Char) : Option Nat :=
  (idxOfCh c cs.reverse).map (fun i => cs.length - 1 - i)

/-- The function `extractJsonObject` from the source: strip thinking, strip fence ticks,
return the text if it parses as JSON, otherwise try the outermost-brace
slice, otherwise return the tick-stripped text. -/
def extractJsonObject (input : String) : String :=
  let cleaned := (stripThinking input).cleaned
  let trimmed := trimS cleaned
  let noTicks := String.mk (trimJS (stripTailTicks (stripLeadTicks trimmed.data)))
  if jsonParseOk noTicks then noTicks
  else
    match idxOfCh '{' noTicks.data, lastIdxOfCh '}' noTicks.data with
    | some first, some last =>
      if first < last then
        let candidate := String.mk ((noTicks.data.drop first).take (last + 1 - first))
        if jsonParseOk candidate then candidate else noTicks
      else noTicks
    | _, _ => noTicks

/-! ## Plan parsing and `runWorkflow`
(`src/app/autobuilder/page.tsx`, wizard variant with `VALIDATION_RULES`) -/

/-- Model of the fallback `planRaw.match` (first brace to final brace): the match runs from the first `{` to the
end of the string and exists iff a `{` occurs and the final character is `}`. -/
def braceTailMatch (s : String) : Option String :=
  match idxOfCh '{' s.data with
  | none => none
  | some i =>
    match s.data.getLast? with
    | some '}' => some (String.mk (s.data.drop i))
    | _ => none

/-- Truthiness of `parsed?.pages?.length`. -/
def pagesLengthTruthy (parsed : JsVal) : Bool :=
  match jsField parsed "pages" with
  | none => false
  | some pv =>
    match jsLengthProp pv with
    | none => false
    | some lv => jsTruthy lv

/-- The `catch` branch of the plan-parsing block: brace-extract and re-parse;
a `JSON.parse` failure inside the branch propagates as an error of its own. -/
def planFallback (planRaw : String) : Except String JsVal :=
  match braceTailMatch planRaw with
  | some sub =>
    match jsonParse sub with
    | some p => .ok p
    | none => .error "SyntaxError: unexpected token in JSON"
  | none => .error "Could not parse plan JSON"

/-- The plan-parsing block of `runWorkflow` (`try`/`catch` around
`JSON.parse(planRaw)` and the `!parsed?.pages?.length` check). -/
def planParse (planRaw : String) : Except String JsVal :=
  match jsonParse planRaw with
  | some parsed =>
    if pagesLengthTruthy parsed then .ok parsed else planFallback planRaw
  | none => planFallback planRaw

/-- Model of `for (const p of parsed.pages)`: arrays iterate their elements, strings
iterate their characters; every other value raises a `TypeError`, which the
outer `catch` of `runWorkflow` turns into a run failure. -/
def pagesIter (parsed : JsVal) : Except String (List JsVal) :=
  match jsField parsed "pages" with
  | some (.arr l) => .ok l
  | some (.str s) => .ok (s.data.map (fun c => .str (String.mk [c])))
  | _ => .error "TypeError: parsed.pages is not iterable"

/-- A Built Page (`BuiltPage` in the source); `id` and `title` are the raw
property accesses `p.id` / `p.title` (possibly `undefined`). -/
structure BuiltPage where
  id : Option JsVal
  title : Option JsVal
  html : String
  valid : Bool
  issues : List String

/-- Build one page from the model response: one `callAi` per page, validated
once, pushed regardless of validity. -/
def buildPage (gen : JsVal → String) (p : JsVal) : BuiltPage :=
  let html := gen p
  let v := validateHtml html
  { id := jsField p "id", title := jsField p "title",
    html := html, valid := v.valid, issues := v.issues }

/-- The function `runWorkflow` from the source, with the model responses for the page
builds supplied by the oracle `gen` (one invocation per planned page): parse
the plan, then generate and validate each page in plan order; invalid pages
are pushed with their issues and never abort the run. -/
def runWorkflow (planRaw : String) (gen : JsVal → String) :
    Except String (List BuiltPage) :=
  match planParse planRaw with
  | .error e => .error e
  | .ok parsed =>
    match pagesIter parsed with
    | .error e => .error e
    | .ok ps => .ok (ps.map (buildPage gen))

/-! ## Shared chrome (`src/app/autobuilder/page.tsx` single-page variant,
`handleGenerate` / `applySharedChrome`; `src/app/api/ollama/scripts.ts`,
`generateLayoutFragments`) -/

/-- First match of `/<body[^>]*>/i`: position and length; exists iff some
case-insensitive `<body` is followed by a later `>`. -/
def findBodyOpenTag : Nat → List Char → Option (Nat × Nat)
  | 0, _ => none
  | _ + 1, [] => none
  | fuel + 1, c :: cs =>
    if headMatches true "<body".data (c :: cs) then
      match idxOfCh '>' ((c :: cs).drop 5) with
      | some g => some (0, 5 + g + 1)
      | none => none
    else (findBodyOpenTag fuel cs).map (fun (p, l) => (p + 1, l))

/-- The function `insertAfterBodyOpen` from the source: splice the snippet right after the
first `<body …>` tag, or prepend it when no such tag exists. -/
def insertAfterBodyOpen (html snippet : String) : String :=
  match findBodyOpenTag (html.length + 1) html.data with
  | some (p, len) =>
    String.mk ((html.data.take (p + len)) ++ '\n' :: snippet.data ++ '\n' :: html.data.drop (p + len))
  | none => snippet ++ "\n" ++ html

/-- Index of the last occurrence of `pat` (exact comparison). -/
def lastSubIdx (pat : List Char) : List Char → Option Nat
  | [] => if headMatches false pat [] then some 0 else none
  | c :: cs =>
    match lastSubIdx pat cs with
    | some i => some (i + 1)
    | none => if headMatches false pat (c :: cs) then some 0 else none

/-- The function `insertBeforeBodyClose` from the source:
`html.toLowerCase().lastIndexOf("</body>")`, splice the snippet just before
it, or append when none exists. -/
def insertBeforeBodyClose (html snippet : String) : String :=
  match lastSubIdx "</body>".data (html.data.map lcChar) with
  | some closeIdx =>
    String.mk (html.data.take closeIdx ++ '\n' :: snippet.data ++ '\n' :: html.data.drop closeIdx)
  | none => html ++ "\n" ++ snippet

/-- Try to match `<TAG[^>]*data-shared[\s\S]*?</TAG>` (case-insensitive) at
the start of `cs`: `data-shared` must occur within the leading non-`>` run
after the opening tag (greedy `[^>]*`, tried longest-first as backtracking
does), and the lazy tail ends at the earliest close tag.  Returns the match
length. -/
def sharedTagMatchAt (tag : String) (cs : List Char) : Option Nat :=
  if headMatches true ('<' :: tag.data) cs then
    let rest := cs.drop (1 + tag.length)
    let runLen := countLeading (· != '>') rest
    let rec tryQ : Nat → Option Nat
      | 0 =>
        if headMatches true "data-shared".data rest then
          (findSub true ('<' :: '/' :: tag.data ++ ['>']) (rest.drop 11)).map
            (fun j => 1 + tag.length + 11 + j + (tag.length + 3))
        else none
      | q + 1 =>
        if headMatches true "data-shared".data (rest.drop (q + 1)) then
          match findSub true ('<' :: '/' :: tag.data ++ ['>']) (rest.drop (q + 1 + 11)) with
          | some j => some (1 + tag.length + (q + 1) + 11 + j + (tag.length + 3))
          | none => tryQ q
        else tryQ q
    tryQ runLen
  else none

/-- Delete the first (leftmost) match of the shared-tag regex above
(the source `replace` has no `g` flag). -/
def removeFirstSharedTag (tag : String) : Nat → List Char → List Char
  | 0, cs => cs
  | fuel + 1, cs =>
    match cs with
    | [] => []
    | c :: rest =>
      match sharedTagMatchAt tag cs with
      | some len => cs.drop len
      | none => c :: removeFirstSharedTag tag fuel rest

/-- First match of `/<title>[^<]*<\/title>/i` (note: `[^<]*`, zero or more,
unlike the validator rule): position and length. -/
def findTitleTag : Nat → List Char → Option (Nat × Nat)
  | 0, _ => none
  | _ + 1, [] => none
  | fuel + 1, c :: cs =>
    if headMatches true "<title>".data (c :: cs) &&
        (let body := (c :: cs).drop 7
         headMatches true "</title>".data (body.drop (countLeading (· != '<') body))) then
      some (0, 7 + countLeading (· != '<') ((c :: cs).drop 7) + 8)
    else (findTitleTag fuel cs).map (fun (p, l) => (p + 1, l))

/-- The `site_title` splice of `applySharedChrome`: replace the first
`<title>…</title>` with the safe title, otherwise insert a title after the
first literal `<head>`. -/
def spliceTitle (html safeTitle : String) : String :=
  match findTitleTag (html.length + 1) html.data with
  | some (p, len) =>
    String.mk (html.data.take p ++ "<title>".data ++ safeTitle.data ++ "</title>".data
               ++ html.data.drop (p + len))
  | none =>
    match findSub true "<head>".data html.data with
    | some p =>
      String.mk (html.data.take (p + 6) ++ '\n' :: "<title>".data ++ safeTitle.data
                 ++ "</title>".data ++ html.data.drop (p + 6))
    | none => html

/-- Field access in the style of `chrome.header?.trim()` on a parsed JSON chrome object:
`none` for a missing or nullish field (skipped), the trimmed string for a
string field, and a `TypeError` for any other value (`.trim` is not a
function there). -/
def chromeStrField (chrome : JsVal) (k : String) : Except String (Option String) :=
  match jsField chrome k with
  | none => .ok none
  | some .null => .ok none
  | some (.str s) => .ok (some (trimS s))
  | some _ => .error "TypeError: trim is not a function"

/-- The function `applySharedChrome` from the source: remove any previous `data-shared`
header/footer and re-inject the chrome fragments, then splice the site
title.  Runtime `TypeError`s (non-string truthy fields) are surfaced as
errors for the enclosing `catch`. -/
def applySharedChrome (html : String) (chrome : JsVal) : Except String String := do
  let headerOpt ← chromeStrField chrome "header"
  let footerOpt ← chromeStrField chrome "footer"
  let output := html
  let output :=
    match headerOpt with
    | some h =>
      if h.isEmpty then output
      else
        let cleared := String.mk (removeFirstSharedTag "header" (output.length + 1) output.data)
        insertAfterBodyOpen cleared h
    | none => output
  let output :=
    match footerOpt with
    | some f =>
      if f.isEmpty then output
      else
        let cleared := String.mk (removeFirstSharedTag "footer" (output.length + 1) output.data)
        insertBeforeBodyClose cleared f
    | none => output
  match jsField chrome "site_title" with
  | none => pure output
  | some v =>
    if !(jsTruthy v) then pure output
    else
      match v with
      | .str s =>
        let safeTitle := trimS s
        if safeTitle.isEmpty then pure output else pure (spliceTitle output safeTitle)
      | _ => .error "TypeError: trim is not a function"

/-- The outcome of `handleGenerate` as far as the claims are concerned:
the authoritative page html (set only on a successful build), the recorded
error, and the export link. -/
structure HandleOutcome where
  html : Option String
  error : Option String
  exportHref : Option String
deriving DecidableEq, Repr

/-- The shared-chrome stage of `handleGenerate`: parse
`JSON.parse(extractJsonObject(chromeRaw))` and reject a chrome whose
`header` or `footer` is falsy. -/
def chromeStage (chromeRaw : String) : Except String JsVal :=
  match jsonParse (extractJsonObject chromeRaw) with
  | none => .error "Could not parse shared chrome JSON."
  | some chrome =>
    if !(jsTruthyOpt (jsField chrome "header")) || !(jsTruthyOpt (jsField chrome "footer")) then
      .error "Shared chrome response missing header/footer sections."
    else .ok chrome

/-- The function `handleGenerate` from the single-page wizard: chrome stage, then page
build (`stripThinking` + `applySharedChrome` + trim + emptiness check), then
export (the reply of the external packager is the `exportReply` parameter).
Any thrown error lands in `error`; `html` is set only after a successful
merge. -/
def handleGenerate (chromeRaw pageRaw : String)
    (exportReply : Except String (Option String)) : HandleOutcome :=
  match chromeStage chromeRaw with
  | .error e => { html := none, error := some e, exportHref := none }
  | .ok chrome =>
    let pageProcessed := stripThinking pageRaw
    match applySharedChrome pageProcessed.cleaned chrome with
    | .error e => { html := none, error := some e, exportHref := none }
    | .ok mergedRaw =>
      let merged := trimS mergedRaw
      if merged.isEmpty then
        { html := none, error := some "Model returned empty HTML document.", exportHref := none }
      else
        match exportReply with
        | .error e => { html := some merged, error := some e, exportHref := none }
        | .ok (some href) =>
          { html := some merged, error := none, exportHref := some href }
        | .ok none =>
          { html := some merged,
            error := some "Export service did not return a download link.",
            exportHref := none }

/-- Field extraction of `generateLayoutFragments`
(`src/app/api/ollama/scripts.ts`):
`typeof response?.k === "string" ? response.k.trim() : ""`.  The parsed
JSON-mode reply must carry non-empty (after trim) string `header` and
`footer` fields, otherwise the call throws `Layout generation failed`. -/
def layoutField (response : JsVal) (k : String) : String :=
  match jsField response k with
  | some (.str s) => trimS s
  | _ => ""

/-- The guard and result of `generateLayoutFragments`. -/
def generateLayoutFragments (response : JsVal) : Except String (String × String) :=
  let header := layoutField response "header"
  let footer := layoutField response "footer"
  if header.isEmpty || footer.isEmpty then .error "Layout generation failed"
  else .ok (header, footer)

/-! ## `appendLayout` and `sanitizeGeneratedCode`
(`src/app/autobuilder/page.tsx`, streaming wizard variant) -/

/-- First match of `/<html[^>]*>/i`: position and length. -/
def findHtmlOpenTag : Nat → List Char → Option (Nat × Nat)
  | 0, _ => none
  | _ + 1, [] => none
  | fuel + 1, c :: cs =>
    if headMatches true "<html".data (c :: cs) then
      match idxOfCh '>' ((c :: cs).drop 5) with
      | some g => some (0, 5 + g + 1)
      | none => none
    else (findHtmlOpenTag fuel cs).map (fun (p, l) => (p + 1, l))

/-- Model of `String.prototype.includes` (case-sensitive substring test). -/
def includesS (s sub : String) : Bool := containsSub false sub.data s.data

/-- The header injection of `appendLayout`:
`output.replace(/<body([^>]*)>/i, "<body" + attrs + ">\n" + header + "\n")`,
falling back to replacing a literal `<body>` when the first regex found no
match (then the fallback cannot match either, but it is modelled as the
source wrote it). -/
def injectHeaderAfterBody (output header : String) : String :=
  match findBodyOpenTag (output.length + 1) output.data with
  | some (p, len) =>
    let attrs := (output.data.drop (p + 5)).take (len - 6)
    String.mk (output.data.take p ++ "<body".data ++ attrs ++ '>' :: '\n' :: header.data
               ++ '\n' :: output.data.drop (p + len))
  | none =>
    match findSub true "<body>".data output.data with
    | some p =>
      String.mk (output.data.take p ++ "<body>".data ++ '\n' :: header.data
                 ++ '\n' :: output.data.drop (p + 6))
    | none => output

/-- The footer injection of `appendLayout`: splice before the first
(case-insensitive) `</body>`, else append at the end. -/
def injectFooterBeforeClose (output footer : String) : String :=
  match findSub true "</body>".data output.data with
  | some p =>
    String.mk (output.data.take p ++ footer.data ++ '\n' :: "</body>".data
               ++ output.data.drop (p + 7))
  | none => output ++ "\n" ++ footer

/-- The function `appendLayout` from the source: inject the trimmed header/footer into a
document that has a `<body>` tag (skipping a fragment already contained
verbatim), or wrap body-less content. -/
def appendLayout (html header footer : String) : String :=
  let cleanHeader := trimS header
  let cleanFooter := trimS footer
  if cleanHeader.isEmpty && cleanFooter.isEmpty then html
  else
    let hasBody := hasTagWsGt "body" html.data
    let hasHtml := hasTagWsGt "html" html.data
    if hasBody then
      let headerAlreadyPresent :=
        if cleanHeader.isEmpty then false else includesS html cleanHeader
      let footerAlreadyPresent :=
        if cleanFooter.isEmpty then false else includesS html cleanFooter
      let output := html
      let output :=
        if !cleanHeader.isEmpty && !headerAlreadyPresent then
          injectHeaderAfterBody output cleanHeader
        else output
      let output :=
        if !cleanFooter.isEmpty && !footerAlreadyPresent then
          injectFooterBeforeClose output cleanFooter
        else output
      output
    else
      let bodyWrapped := String.intercalate "\n"
        (([cleanHeader, trimS html, cleanFooter].filter (fun seg => !seg.isEmpty)))
      if hasHtml then
        match findHtmlOpenTag (html.length + 1) html.data with
        | some (p, len) =>
          let attrs := (html.data.drop (p + 5)).take (len - 6)
          String.mk (html.data.take p ++ "<html".data ++ attrs ++ '>' :: '\n' :: "<body>".data
                     ++ '\n' :: bodyWrapped.data ++ '\n' :: "</body>".data
                     ++ html.data.drop (p + len))
        | none => html
      else "<html>\n<body>\n" ++ bodyWrapped ++ "\n</body>\n</html>"

/-- Alphanumeric or dash, the class of the fence language tag. -/
def isAlnumDash (c : Char) : Bool :=
  ('a' ≤ c && c ≤ 'z') || ('A' ≤ c && c ≤ 'Z') || isDigitCh c || c == '-'

/-- Remove every ```` ```html ```` marker plus following whitespace
(the global, case-insensitive second replace of `sanitizeGeneratedCode`). -/
def removeHtmlFences : Nat → List Char → List Char
  | 0, cs => cs
  | fuel + 1, cs =>
    match cs with
    | [] => []
    | c :: rest =>
      if headMatches true "```html".data cs then
        let after := cs.drop 7
        removeHtmlFences fuel (after.drop (countLeading isWsJS after))
      else c :: removeHtmlFences fuel rest

/-- The function `sanitizeGeneratedCode` from the source: trim, strip one symmetric fence
wrapper, remove stray ```` ```html ```` markers, trim again. -/
def sanitizeGeneratedCode (code : String) : String :=
  let output := trimS code
  let output :=
    if headMatches false "```".data output.data &&
       headMatches false "```".data (output.data.drop (output.length - 3)) then
      let a := output.data.drop 3
      let a := a.drop (countLeading isAlnumDash a)
      let a := a.drop (countLeading isWsJS a)
      String.mk (stripTailTicks a)
    else output
  trimS (String.mk (removeHtmlFences (output.length + 1) output.data))

/-! ## The streaming aggregator `callAi` (`src/app/lib/zip.ts`) -/

/-- Process one complete line of the stream: a parse round per the source
(`JSON.parse(line)`, string `response` delta, truthy `done`), or the raw
(trimmed) line as a text delta when parsing fails.  Returns the delta to
append and the `done` flag. -/
def lineDelta (line : List Char) : List Char × Bool :=
  match jsonParse (String.mk line) with
  | some parsed =>
    let delta := match jsField parsed "response" with
      | some (.str s) => s.data
      | _ => []
    (delta, jsTruthyOpt (jsField parsed "done"))
  | none => (line, false)

/-- The inner `while` of `callAi` over the complete (newline-terminated)
segments of the buffer: trim each line, skip empties, append deltas; a
truthy `done` clears the buffer, discarding every remaining segment. -/
def innerSegs : List (List Char) → List Char × Bool
  | [] => ([], false)
  | seg :: rest =>
    let line := trimJS seg
    if line.isEmpty then innerSegs rest
    else if (lineDelta line).2 then ((lineDelta line).1, true)
    else ((lineDelta line).1 ++ (innerSegs rest).1, (innerSegs rest).2)

/-- One `reader.read()` round of `callAi`: append the chunk to the buffer,
process every complete line, and compute the new buffer (cleared when a
truthy `done` was seen). -/
def callAiStep (buffer chunk : List Char) : List Char × List Char :=
  let segs := splitNl (buffer ++ chunk)
  ((innerSegs segs.dropLast).1,
   if (innerSegs segs.dropLast).2 then [] else segs.getLastD [])

/-- All read rounds of `callAi`; returns the concatenated deltas and the
final unconsumed buffer. -/
def callAiRounds : List Char → List (List Char) → List Char × List Char
  | buffer, [] => ([], buffer)
  | buffer, chunk :: rest =>
    ((callAiStep buffer chunk).1 ++ (callAiRounds (callAiStep buffer chunk).2 rest).1,
     (callAiRounds (callAiStep buffer chunk).2 rest).2)

/-- The trailing-buffer flush of `callAi` (no `done` handling there). -/
def flushTail (buffer : List Char) : List Char :=
  let tail := trimJS buffer
  if tail.isEmpty then []
  else
    match jsonParse (String.mk tail) with
    | some parsed =>
      match jsField parsed "response" with
      | some (.str s) => s.data
      | _ => []
    | none => tail

/-- The function `callAi` in streaming mode, as a function of the transport chunk
sequence (chunks arrive already text-decoded): line-buffered aggregation
until the transport closes, then the tail flush. -/
def callAiAggregate (chunks : List String) : String :=
  String.mk ((callAiRounds [] (chunks.map String.data)).1
    ++ flushTail (callAiRounds [] (chunks.map String.data)).2)

/-! ## Streaming page builds and cancellation
(`src/app/autobuilder/page.tsx`, `streamCodeForPage` / `stopStreaming`) -/

/-- The abort-controller bookkeeping of the streaming wizard: `current` is
`streamControllerRef.current` (a controller identified by its serial
number), `aborted` the set of controllers whose `abort()` has been called. -/
structure StreamSession where
  nextId : Nat
  current : Option Nat
  aborted : List Nat
deriving DecidableEq, Repr

/-- The prologue of `streamCodeForPage`:
`streamControllerRef.current?.abort()` followed by installing a fresh
controller.  Returns the new session state and the controller of the new call. -/
def startStreamCall (st : StreamSession) : StreamSession × Nat :=
  let aborted := match st.current with
    | some c => c :: st.aborted
    | none => st.aborted
  ({ nextId := st.nextId + 1, current := some st.nextId, aborted := aborted },
   st.nextId)

/-- How a streaming call ends. -/
inductive StreamErr where
  | aborted : StreamErr
  | noCode : StreamErr
deriving DecidableEq, Repr

/-- The read loop of `streamCodeForPage`.  `abortAt = some k` means the
controller of the call is aborted while the call awaits its `k`-th `read()`
(0-based); a pending or later read on an aborted signal rejects with
`AbortError`, which is the only way the event loop can interrupt the call
while it is in flight (between awaits the function body is synchronous). -/
def readLoop (abortAt : Option Nat) : Nat → List String → String → Except StreamErr String
  | i, [], agg =>
    match abortAt with
    | some k => if k ≤ i then .error .aborted else .ok agg
    | none => .ok agg
  | i, chunk :: rest, agg =>
    match abortAt with
    | some k =>
      if k ≤ i then .error .aborted else readLoop abortAt (i + 1) rest (agg ++ chunk)
    | none => readLoop abortAt (i + 1) rest (agg ++ chunk)

/-- Result of one `streamCodeForPage` call: how it ended, plus every write it
performed on the generated-files (Built Pages) array via `setFiles`. -/
structure StreamRunResult where
  result : Except StreamErr String
  filesWrites : List (Nat × String)
deriving Repr

/-- The body of `streamCodeForPage` after the controller handoff: read all
chunks (unless aborted), sanitize, reject empty output, optionally apply the
layout fragments, and only then — on the fully successful path with
`updateFiles` — write the aggregated document into the files array at
`index`.  The `catch`/`finally` of the source perform no `setFiles`. -/
def streamCodeForPageRun (index : Nat) (chunks : List String) (abortAt : Option Nat)
    (applyLayout updateFiles : Bool) (layoutFragments : Option (String × String)) :
    StreamRunResult :=
  match readLoop abortAt 0 chunks "" with
  | .error e => { result := .error e, filesWrites := [] }
  | .ok agg0 =>
    let agg1 := sanitizeGeneratedCode agg0
    if agg1.isEmpty then { result := .error .noCode, filesWrites := [] }
    else
      let agg2 := match applyLayout, layoutFragments with
        | true, some lf => appendLayout agg1 lf.1 lf.2
        | _, _ => agg1
      { result := .ok agg2,
        filesWrites := if updateFiles then [(index, agg2)] else [] }


/-- Prepend `x` onto the first element of a segment list (helper for
describing how `splitNl` decomposes over append). -/
def consHd (x : List Char) : List (List Char) → List (List Char)
  | [] => [x]
  | s :: ss => (x ++ s) :: ss

/-- A complete line that does not end aggregation: it is skipped as empty or
its parse produces a falsy `done`. -/
def noDoneSeg (seg : List Char) : Bool :=
  (trimJS seg).isEmpty || !((lineDelta (trimJS seg)).2)

/-! ## General lemmas -/

theorem dropWhile_idem (p : Char → Bool) (l : List Char) :
    (l.dropWhile p).dropWhile p = l.dropWhile p := by
  induction l with
  | nil => rfl
  | cons c cs ih =>
    by_cases h : p c
    · simp [List.dropWhile_cons, h, ih]
    · simp [List.dropWhile_cons, h]

theorem dropWhile_head_not (p : Char → Bool) (l : List Char) (c : Char) (t : List Char)
    (h : l.dropWhile p = c :: t) : p c = false := by
  induction l with
  | nil => simp [List.dropWhile] at h
  | cons d ds ih =>
    by_cases hd : p d
    · rw [List.dropWhile_cons] at h
      simp [hd] at h
      exact ih h
    · rw [List.dropWhile_cons] at h
      simp [hd] at h
      rw [← h.1]
      exact Bool.eq_false_iff.mpr hd

theorem dropWhile_is_suffix (p : Char → Bool) (l : List Char) :
    ∃ u, u ++ l.dropWhile p = l := by
  induction l with
  | nil => exact ⟨[], rfl⟩
  | cons c cs ih =>
    by_cases h : p c
    · obtain ⟨u, hu⟩ := ih
      exact ⟨c :: u, by simp [List.dropWhile_cons, h, hu]⟩
    · exact ⟨[], by simp [List.dropWhile_cons, h]⟩

theorem trimJS_idem (l : List Char) : trimJS (trimJS l) = trimJS l := by
  unfold trimJS
  generalize hA : l.dropWhile isWsJS = A
  have hAhead : ∀ c t, A = c :: t → isWsJS c = false := fun c t h =>
    dropWhile_head_not isWsJS l c t (hA.trans h)
  obtain ⟨u, hu⟩ := dropWhile_is_suffix isWsJS A.reverse
  have hBA : (A.reverse.dropWhile isWsJS).reverse ++ u.reverse = A := by
    have h2 := congrArg List.reverse hu
    simpa using h2
  have hBdrop : (A.reverse.dropWhile isWsJS).reverse.dropWhile isWsJS
      = (A.reverse.dropWhile isWsJS).reverse := by
    cases hBc : (A.reverse.dropWhile isWsJS).reverse with
    | nil => rfl
    | cons c t =>
      have hAc : A = c :: (t ++ u.reverse) := by
        rw [← hBA, hBc]
        rfl
      have hc := hAhead c _ hAc
      simp [List.dropWhile_cons, hc]
  rw [hBdrop, List.reverse_reverse, dropWhile_idem]

theorem trimS_idem (s : String) : trimS (trimS s) = trimS s := by
  simp only [trimS]
  exact congrArg String.mk (trimJS_idem s.data)

theorem stripThinking_eq (s : String) :
    stripThinking s =
      ⟨String.mk (trimJS (fencePass (thoughtPass (commentPass (thinkPass s.data).1).1).1)),
       (thinkPass s.data).2 ++ (commentPass (thinkPass s.data).1).2
         ++ (thoughtPass (commentPass (thinkPass s.data).1).1).2⟩ := by
  unfold stripThinking
  rcases hw1 : thinkPass s.data with ⟨w1, t1⟩
  rcases hw2 : commentPass w1 with ⟨w2, t2⟩
  rcases hw3 : thoughtPass w2 with ⟨w3, t3⟩
  simp [hw1, hw2, hw3]

theorem stripThinking_cleaned_trimmed (s : String) :
    trimJS (stripThinking s).cleaned.data = (stripThinking s).cleaned.data := by
  rw [stripThinking_eq s]
  exact trimJS_idem _

/-- Claim C1, counterexample.  The Thinking Extractor is not idempotent:
on `"<thi<think>x</think>nk>abc</think>"` the removal of the inner think
block splices the surrounding text into a brand-new `<think>…</think>`
block, so the second run extracts a further thought (`"abc"`) and changes
the cleaned text again. -/
theorem stripThinking_not_idempotent :
    (stripThinking (stripThinking "<thi<think>x</think>nk>abc</think>").cleaned).thoughts
        = ["abc"]
    ∧ (stripThinking (stripThinking "<thi<think>x</think>nk>abc</think>").cleaned).cleaned
        ≠ (stripThinking "<thi<think>x</think>nk>abc</think>").cleaned := by
  constructor
  · rfl
  · decide

/-- Claim C1 (amended): a second run of the Thinking Extractor is a no-op —
`extract(extract(s).cleaned).cleaned = extract(s).cleaned` with an empty
`thoughts` list — provided the cleaned output of the first run no longer
triggers any of the four passes (think blocks, think comments,
Thought/Thinking/Reasoning lines, code fences).  In general the property
fails, because removing a block can splice the surrounding text into a new
marker (see the counterexample). -/
theorem stripThinking_idempotent_on_markerFree (s : String)
    (h1 : thinkPass (stripThinking s).cleaned.data = ((stripThinking s).cleaned.data, []))
    (h2 : commentPass (stripThinking s).cleaned.data = ((stripThinking s).cleaned.data, []))
    (h3 : thoughtPass (stripThinking s).cleaned.data = ((stripThinking s).cleaned.data, []))
    (h4 : fencePass (stripThinking s).cleaned.data = (stripThinking s).cleaned.data) :
    stripThinking (stripThinking s).cleaned = ⟨(stripThinking s).cleaned, []⟩ := by
  rw [stripThinking_eq ((stripThinking s).cleaned), h1]
  simp only [h2, h3, h4]
  refine congrArg₂ ThinkingExtraction.mk ?_ rfl
  rw [stripThinking_cleaned_trimmed s]

/-- Witness for the amended C1 theorem at a concrete input. -/
theorem stripThinking_idempotent_on_markerFree_witness :
    stripThinking (stripThinking "hello <think>secret</think> world").cleaned
      = ⟨(stripThinking "hello <think>secret</think> world").cleaned, []⟩ :=
  stripThinking_idempotent_on_markerFree "hello <think>secret</think> world"
    (by decide) (by decide) (by decide) (by decide)

theorem foldIssues (html : String) :
    ∀ (rules : List ValidationRule) (acc : List String),
      rules.foldl (fun acc r => if r.check html then acc else acc ++ [r.issue]) acc
        = acc ++ (rules.filter (fun r => !(r.check html))).map ValidationRule.issue := by
  intro rules
  induction rules with
  | nil => intro acc; simp
  | cons r rs ih =>
    intro acc
    by_cases h : r.check html
    · simp [List.foldl_cons, List.filter_cons, h, ih]
    · simp [List.foldl_cons, List.filter_cons, h, ih]

/-- Claim C2.  The structural validator is a pure function (so two calls on
the same input are literally the same value); its `valid` flag is exactly the
emptiness of `issues`; and `issues` carries exactly one string per failing
rule, in the fixed rule order html, head, body, title, external-script. -/
theorem validateHtml_valid_iff_issues_ordered (html : String) :
    (validateHtml html).valid = (validateHtml html).issues.isEmpty
    ∧ (validateHtml html).issues
        = ((VALIDATION_RULES ++ [externalScriptRule]).filter
            (fun r => !(r.check html))).map ValidationRule.issue := by
  constructor
  · rfl
  · show (validateHtml html).issues = _
    unfold validateHtml
    rw [foldIssues html]
    by_cases h : hasExternalScript html.data
    · simp [List.filter_append, externalScriptRule, h, List.filter_cons]
    · simp [List.filter_append, externalScriptRule, h, List.filter_cons]

/-- Claim C3.  In the source there is no structural fix loop at all: a run
that succeeds maps each planned page to exactly one model call (`buildPage`
applies the oracle once per page), so the number of fix iterations is zero,
trivially within any `maxFixAttempts` bound, and the loop-exit condition is
vacuous.  The substantive part holds as claimed: pages that fail validation
are pushed with their issues carried forward, and validity can never fail
the run — whether the run succeeds is independent of the generated HTML. -/
theorem runWorkflow_single_generation_bounded (s : String) (gen : JsVal → String)
    (pages : List BuiltPage) (h : runWorkflow s gen = .ok pages) :
    (∃ pl, pagesIter ((planParse s).toOption.getD .null) = .ok pl
        ∧ pages = pl.map (buildPage gen))
    ∧ (∀ bp ∈ pages, bp.valid = (validateHtml bp.html).valid
        ∧ bp.issues = (validateHtml bp.html).issues)
    ∧ (∀ gen2 : JsVal → String, ∃ pages2, runWorkflow s gen2 = .ok pages2) := by
  unfold runWorkflow at h
  cases hplan : planParse s with
  | error e =>
    simp only [hplan] at h
    exact Except.noConfusion h
  | ok parsed =>
    simp only [hplan] at h
    cases hpages : pagesIter parsed with
    | error e =>
      simp only [hpages] at h
      exact Except.noConfusion h
    | ok pl =>
      simp only [hpages, Except.ok.injEq] at h
      have hp : pages = pl.map (buildPage gen) := h.symm
      refine ⟨⟨pl, hpages, hp⟩, ?_, ?_⟩
      · intro bp hbp
        rw [hp] at hbp
        obtain ⟨p, _, hpb⟩ := List.mem_map.mp hbp
        subst hpb
        exact ⟨rfl, rfl⟩
      · intro gen2
        exact ⟨pl.map (buildPage gen2), by simp [runWorkflow, hplan, hpages]⟩

/-- Witness for C3: a one-page plan whose generated HTML fails validation is
still returned by the run, with its issues carried forward. -/
theorem runWorkflow_single_generation_bounded_witness :
    (∃ pl, pagesIter ((planParse "\x7b\"pages\":[\x7b\"id\":\"home\",\"title\":\"Home\"\x7d]\x7d").toOption.getD .null) = .ok pl
        ∧ [buildPage (fun _ => "<p>x</p>") (.obj [("id", .str "home"), ("title", .str "Home")])]
            = pl.map (buildPage (fun _ => "<p>x</p>")))
    ∧ (∀ bp ∈ [buildPage (fun _ => "<p>x</p>") (.obj [("id", .str "home"), ("title", .str "Home")])],
        bp.valid = (validateHtml bp.html).valid
        ∧ bp.issues = (validateHtml bp.html).issues)
    ∧ (∀ gen2 : JsVal → String, ∃ pages2,
        runWorkflow "\x7b\"pages\":[\x7b\"id\":\"home\",\"title\":\"Home\"\x7d]\x7d" gen2 = .ok pages2) :=
  runWorkflow_single_generation_bounded
    "\x7b\"pages\":[\x7b\"id\":\"home\",\"title\":\"Home\"\x7d]\x7d"
    (fun _ => "<p>x</p>")
    [buildPage (fun _ => "<p>x</p>") (.obj [("id", .str "home"), ("title", .str "Home")])]
    rfl

/-- Claim C4, counterexample.  A plan response that is valid JSON with an
*empty* page list does not fail the run: the `Missing pages` throw is caught
and the brace fallback re-parses the same text without re-checking
emptiness, so the run completes with zero Built Pages instead of throwing. -/
theorem runWorkflow_empty_pages_no_throw :
    jsonParse "\x7b\"pages\":[]\x7d" = some (.obj [("pages", .arr [])])
    ∧ runWorkflow "\x7b\"pages\":[]\x7d" (fun _ => "") = .ok [] := by
  exact ⟨rfl, rfl⟩

/-- Claim C4 (amended).  The site-map stage fails the run when the response
is unparsable as JSON and contains no first-brace-to-final-brace slice
(`match(/\{[\s\S]*\}$/)`) that rescues it; but a directly-parsable response
with an empty page list is caught and re-parsed through the brace fallback,
which skips the emptiness check — when the text ends in `}` the run
proceeds and produces zero Built Pages rather than throwing. -/
theorem planParse_failure_and_fallback :
    (∀ (s : String) (gen : JsVal → String),
      jsonParse s = none → braceTailMatch s = none →
      runWorkflow s gen = .error "Could not parse plan JSON")
    ∧ (∀ (s t : String) (gen : JsVal → String) (p q : JsVal),
      jsonParse s = some p → pagesLengthTruthy p = false →
      braceTailMatch s = some t → jsonParse t = some q →
      jsField q "pages" = some (.arr []) →
      runWorkflow s gen = .ok []) := by
  constructor
  · intro s gen hjson hbrace
    simp [runWorkflow, planParse, planFallback, hjson, hbrace]
  · intro s t gen p q hjson htruthy hbrace hjson2 hfield
    simp [runWorkflow, planParse, planFallback, hjson, htruthy, hbrace, hjson2,
      pagesIter, hfield]

/-- Witness for the amended C4 theorem: both branches at concrete inputs. -/
theorem planParse_failure_and_fallback_witness :
    runWorkflow "no json here" (fun _ => "") = .error "Could not parse plan JSON"
    ∧ runWorkflow "\x7b\"pages\":[]\x7d" (fun _ => "x") = .ok [] := by
  constructor
  · exact planParse_failure_and_fallback.1 "no json here" (fun _ => "") rfl rfl
  · exact planParse_failure_and_fallback.2 "\x7b\"pages\":[]\x7d" "\x7b\"pages\":[]\x7d"
      (fun _ => "x") (.obj [("pages", .arr [])]) (.obj [("pages", .arr [])])
      rfl rfl rfl rfl rfl

/-- Claim C5.  The shared-chrome stage fails the whole run whenever the
parsed JSON reply has a falsy (empty or missing) `header` or `footer`:
`handleGenerate` records the error and never sets a page; and the streaming
wizard function `generateLayoutFragments` throws `Layout generation failed` when a
trimmed fragment is empty or not a string. -/
theorem chrome_missing_header_footer_fails :
    (∀ (chromeRaw pageRaw : String) (exportReply : Except String (Option String)) (c : JsVal),
      jsonParse (extractJsonObject chromeRaw) = some c →
      (jsTruthyOpt (jsField c "header") = false ∨ jsTruthyOpt (jsField c "footer") = false) →
      handleGenerate chromeRaw pageRaw exportReply =
        { html := none,
          error := some "Shared chrome response missing header/footer sections.",
          exportHref := none })
    ∧ (∀ response : JsVal,
      (layoutField response "header" = "" ∨ layoutField response "footer" = "") →
      generateLayoutFragments response = .error "Layout generation failed") := by
  constructor
  · intro chromeRaw pageRaw exportReply c hparse hfalsy
    have hstage : chromeStage chromeRaw = .error "Shared chrome response missing header/footer sections." := by
      unfold chromeStage
      rw [hparse]
      rcases hfalsy with hf | hf
      · simp [hf]
      · simp [hf]
    unfold handleGenerate
    rw [hstage]
  · intro response hempty
    unfold generateLayoutFragments
    have hemp : "".isEmpty = true := rfl
    rcases hempty with hf | hf
    · simp [hf, hemp]
    · simp [hf, hemp]

/-- Witness for C5: an empty `header` string and, for the layout variant, a
whitespace-only header. -/
theorem chrome_missing_header_footer_fails_witness :
    handleGenerate "\x7b\"header\":\"\",\"footer\":\"<footer>f</footer>\"\x7d" "<p>x</p>"
        (.ok (some "/site.zip")) =
      { html := none,
        error := some "Shared chrome response missing header/footer sections.",
        exportHref := none }
    ∧ generateLayoutFragments (.obj [("header", .str "  "), ("footer", .str "<footer>f</footer>")])
        = .error "Layout generation failed" := by
  constructor
  · exact chrome_missing_header_footer_fails.1
      "\x7b\"header\":\"\",\"footer\":\"<footer>f</footer>\"\x7d" "<p>x</p>"
      (.ok (some "/site.zip"))
      (.obj [("header", .str ""), ("footer", .str "<footer>f</footer>")])
      rfl (Or.inl rfl)
  · exact chrome_missing_header_footer_fails.2
      (.obj [("header", .str "  "), ("footer", .str "<footer>f</footer>")])
      (Or.inl rfl)

theorem readLoop_aborted (k : Nat) :
    ∀ (chunks : List String) (i : Nat) (agg : String), k ≤ i + chunks.length →
      readLoop (some k) i chunks agg = .error .aborted := by
  intro chunks
  induction chunks with
  | nil =>
    intro i agg hk
    simp at hk
    simp [readLoop, hk]
  | cons c rest ih =>
    intro i agg hk
    by_cases hki : k ≤ i
    · simp [readLoop, hki]
    · have : k ≤ (i + 1) + rest.length := by
        simp [List.length_cons] at hk
        omega
      simp [readLoop, hki, ih (i + 1) (agg ++ c) this]

/-- Claim C6.  Starting a new streaming page-build call first aborts the
controller of the previous call (`streamControllerRef.current?.abort()` runs
before the new controller is installed); and a call whose controller is
aborted while it is in flight — i.e. while it awaits one of its reads,
which is the only place the event loop can interleave an abort — rejects
with `AbortError` and performs no write at all to the generated-files
array: its partial output never reaches the Built Pages. -/
theorem stream_abort_no_files_mutation :
    (∀ (st : StreamSession) (c : Nat), st.current = some c →
      c ∈ (startStreamCall st).1.aborted)
    ∧ (∀ (index : Nat) (chunks : List String) (k : Nat)
        (applyLayout updateFiles : Bool) (lf : Option (String × String)),
      k ≤ chunks.length →
      (streamCodeForPageRun index chunks (some k) applyLayout updateFiles lf).filesWrites = []) := by
  constructor
  · intro st c hc
    simp [startStreamCall, hc]
  · intro index chunks k a u lf hk
    have h := readLoop_aborted k chunks 0 "" (by simpa using hk)
    simp [streamCodeForPageRun, h]

/-- Witness for C6 at a concrete session and stream. -/
theorem stream_abort_no_files_mutation_witness :
    3 ∈ (startStreamCall { nextId := 5, current := some 3, aborted := [1] }).1.aborted
    ∧ (streamCodeForPageRun 0 ["<p>", "x</p>"] (some 1) true true
        (some ("<header>H</header>", "<footer>F</footer>"))).filesWrites = [] := by
  constructor
  · exact stream_abort_no_files_mutation.1 { nextId := 5, current := some 3, aborted := [1] } 3 rfl
  · exact stream_abort_no_files_mutation.2 0 ["<p>", "x</p>"] 1 true true
      (some ("<header>H</header>", "<footer>F</footer>")) (by decide)

theorem trimJS_data_trimS (s : String) : trimJS (trimS s).data = (trimS s).data := by
  simp only [trimS]
  exact trimJS_idem s.data

/-- Claim C7, counterexample.  `extractJsonObject` does not return every
already-valid JSON input unchanged modulo whitespace: `stripThinking` runs
first and rewrites reasoning markers even inside JSON string literals, so
the valid input `{"a":"<think>x</think>"}` comes back as `{"a":""}`. -/
theorem extractJsonObject_mangles_marked_json :
    jsonParseOk "\x7b\"a\":\"<think>x</think>\"\x7d" = true
    ∧ extractJsonObject "\x7b\"a\":\"<think>x</think>\"\x7d" = "\x7b\"a\":\"\"\x7d"
    ∧ "\x7b\"a\":\"\"\x7d" ≠ trimS "\x7b\"a\":\"<think>x</think>\"\x7d" :=
  ⟨rfl, rfl, by decide⟩

/-- Claim C7 (amended).  On the preamble-wrapped input of the claim the
extractor returns exactly the brace-delimited JSON object (first conjunct,
as claimed).  An input that is
already valid JSON text is returned unchanged except for surrounding
whitespace *provided* the thinking passes leave it untouched and it does not
begin or end with a code-fence marker (valid JSON never does begin with one;
the hypotheses are stated syntactically so they are checkable): in general
`stripThinking` may rewrite valid JSON whose string literals contain
reasoning markers, as the counterexample shows. -/
theorem extractJsonObject_preamble_and_clean_json :
    extractJsonObject "some preamble \x7b\"a\":1\x7d trailing" = "\x7b\"a\":1\x7d"
    ∧ (∀ s : String,
        thinkPass s.data = (s.data, []) →
        commentPass s.data = (s.data, []) →
        thoughtPass s.data = (s.data, []) →
        fencePass s.data = s.data →
        jsonParseOk (trimS s) = true →
        headMatches false "```".data (trimS s).data = false →
        headMatches false "```".data ((trimS s).data.drop ((trimS s).data.length - 3)) = false →
        extractJsonObject s = trimS s) := by
  constructor
  · rfl
  · intro s h1 h2 h3 h4 hok hlead htail
    have hcleaned : (stripThinking s).cleaned = trimS s := by
      rw [stripThinking_eq s, h1]
      simp only [h2, h3, h4]
      rfl
    have hstrip1 : stripLeadTicks (trimS s).data = (trimS s).data := by
      unfold stripLeadTicks
      rw [hlead]
      simp
    have hstrip2 : stripTailTicks (trimS s).data = (trimS s).data := by
      unfold stripTailTicks
      rw [htail]
      simp
    have hmk : String.mk (trimS s).data = trimS s := rfl
    unfold extractJsonObject
    dsimp only
    rw [hcleaned, trimS_idem, hstrip1, hstrip2, trimJS_data_trimS, hmk, hok]
    simp

/-- Witness for the amended C7 theorem on a whitespace-padded JSON object. -/
theorem extractJsonObject_preamble_and_clean_json_witness :
    extractJsonObject " \x7b\"a\": 1\x7d " = trimS " \x7b\"a\": 1\x7d " :=
  extractJsonObject_preamble_and_clean_json.2 " \x7b\"a\": 1\x7d "
    (by decide) (by decide) (by decide) (by decide) rfl (by decide) (by decide)

theorem trim_entry_props (u : List Char) (h : (trimJS u).isEmpty = false) :
    trimS (String.mk (trimJS u)) = String.mk (trimJS u) ∧ String.mk (trimJS u) ≠ "" := by
  constructor
  · exact congrArg String.mk (trimJS_idem u)
  · intro hcontra
    have hdata : trimJS u = [] := congrArg String.data hcontra
    rw [hdata] at h
    simp at h

theorem collectOpt_entries (raw : List Char) :
    ∀ t ∈ collectOpt raw, trimS t = t ∧ t ≠ "" := by
  intro t ht
  unfold collectOpt at ht
  by_cases hemp : (trimJS raw).isEmpty
  · simp [hemp] at ht
  · simp [hemp] at ht
    subst ht
    exact trim_entry_props raw (by simpa using hemp)

theorem thinkPassGo_entries :
    ∀ fuel cs, ∀ t ∈ (thinkPassGo fuel cs).2, trimS t = t ∧ t ≠ "" := by
  intro fuel
  induction fuel with
  | zero => intro cs t ht; simp [thinkPassGo] at ht
  | succ n ih =>
    intro cs t ht
    unfold thinkPassGo at ht
    cases h1 : findSub true "<think>".data cs with
    | none => simp only [h1] at ht; simp at ht
    | some i =>
      simp only [h1] at ht
      cases h2 : findSub true "</think>".data (cs.drop (i + 7)) with
      | none => simp only [h2] at ht; simp at ht
      | some k =>
        simp only [h2] at ht
        rcases h3 : thinkPassGo n ((cs.drop (i + 7)).drop (k + 8)) with ⟨r, ts⟩
        simp only [h3] at ht
        rcases List.mem_append.mp ht with hin | hin
        · exact collectOpt_entries _ t hin
        · exact ih _ t (by rw [h3]; exact hin)

theorem commentPassGo_entries :
    ∀ fuel cs, ∀ t ∈ (commentPassGo fuel cs).2, trimS t = t ∧ t ≠ "" := by
  intro fuel
  induction fuel with
  | zero => intro cs t ht; simp [commentPassGo] at ht
  | succ n ih =>
    intro cs t ht
    unfold commentPassGo at ht
    cases cs with
    | nil => simp at ht
    | cons c rest =>
      cases h1 : commentMatchAt (c :: rest) with
      | some len =>
        simp only [h1] at ht
        rcases h3 : commentPassGo n ((c :: rest).drop len) with ⟨r, ts⟩
        simp only [h3] at ht
        rcases List.mem_append.mp ht with hin | hin
        · exact collectOpt_entries _ t hin
        · exact ih _ t (by rw [h3]; exact hin)
      | none =>
        simp only [h1] at ht
        rcases h3 : commentPassGo n rest with ⟨r, ts⟩
        simp only [h3] at ht
        exact ih rest t (by rw [h3]; exact ht)

theorem thoughtPassGo_entries :
    ∀ fuel atStart cs, ∀ t ∈ (thoughtPassGo fuel atStart cs).2, trimS t = t ∧ t ≠ "" := by
  intro fuel
  induction fuel with
  | zero => intro atStart cs t ht; simp [thoughtPassGo] at ht
  | succ n ih =>
    intro atStart cs t ht
    cases atStart with
    | true =>
      unfold thoughtPassGo at ht
      cases h1 : labelLineAt cs with
      | some r =>
        simp only [h1] at ht
        rcases h3 : thoughtPassGo n false (cs.drop r.1) with ⟨rr, ts⟩
        simp only [h3] at ht
        rcases List.mem_append.mp ht with hin | hin
        · exact collectOpt_entries _ t hin
        · exact ih false _ t (by rw [h3]; exact hin)
      | none =>
        simp only [h1] at ht
        exact ih false cs t ht
    | false =>
      unfold thoughtPassGo at ht
      cases cs with
      | nil => simp at ht
      | cons c rest =>
        by_cases hc : c == '\n'
        · simp only [hc, if_pos] at ht
          cases h1 : labelLineAt rest with
          | some r =>
            simp only [h1] at ht
            rcases h3 : thoughtPassGo n false (rest.drop r.1) with ⟨rr, ts⟩
            simp only [h3] at ht
            rcases List.mem_append.mp ht with hin | hin
            · exact collectOpt_entries _ t hin
            · exact ih false _ t (by rw [h3]; exact hin)
          | none =>
            simp only [h1] at ht
            rcases h3 : thoughtPassGo n false rest with ⟨rr, ts⟩
            simp only [h3] at ht
            exact ih false rest t (by rw [h3]; exact ht)
        · simp only [hc, if_neg] at ht
          rcases h3 : thoughtPassGo n false rest with ⟨rr, ts⟩
          simp only [h3] at ht
          exact ih false rest t (by rw [h3]; exact ht)

/-- Claim C8, counterexample.  The thoughts list is ordered by removal pass,
not by where the items first appear in the input: in
`"Thought: early\n<think>late</think>"` the Thought line appears first in
the input (position 0, the think block at position 15), yet the extractor
lists the think-block item first. -/
theorem stripThinking_thoughts_not_input_order :
    (stripThinking "Thought: early\n<think>late</think>").thoughts
      = ["late", "Thought:  early"]
    ∧ findSub true "Thought:".data "Thought: early\n<think>late</think>".data = some 0
    ∧ findSub true "<think>".data "Thought: early\n<think>late</think>".data = some 15
    ∧ ["late", "Thought:  early"] ≠ ["Thought:  early", "late"] :=
  ⟨rfl, rfl, rfl, by decide⟩

/-- Claim C8 (amended).  The extractor removes reasoning in the priority
order think blocks, then think comments, then Thought/Thinking/Reasoning
lines, and every collected entry is trimmed and non-empty; but the list is
ordered pass by pass (positional order only within each pass), not by first
appearance in the input (see the counterexample). -/
theorem stripThinking_thoughts_pass_order (s : String) :
    (stripThinking s).thoughts
      = (thinkPass s.data).2
        ++ (commentPass (thinkPass s.data).1).2
        ++ (thoughtPass (commentPass (thinkPass s.data).1).1).2
    ∧ ∀ t ∈ (stripThinking s).thoughts, trimS t = t ∧ t ≠ "" := by
  constructor
  · rw [stripThinking_eq s]
  · intro t ht
    rw [stripThinking_eq s] at ht
    simp only [List.mem_append] at ht
    rcases ht with (hin | hin) | hin
    · exact thinkPassGo_entries _ _ t hin
    · exact commentPassGo_entries _ _ t hin
    · exact thoughtPassGo_entries _ _ _ t hin

/-- Witness for the amended C8 theorem: the trimmed-and-non-empty invariant
applied to a concrete collected thought. -/
theorem stripThinking_thoughts_pass_order_witness :
    trimS "secret" = "secret" ∧ "secret" ≠ "" :=
  (stripThinking_thoughts_pass_order "hello <think>secret</think> world").2
    "secret" (by decide)

theorem splitNl_ne_nil (cs : List Char) : splitNl cs ≠ [] := by
  cases cs with
  | nil => simp [splitNl]
  | cons c rest =>
    unfold splitNl
    by_cases hc : c == '\n'
    · simp [hc]
    · simp only [hc]
      cases h : splitNl rest with
      | nil => simp
      | cons s ss => simp

theorem dropLast_cons_ne (x : List Char) (S : List (List Char)) (h : S ≠ []) :
    (x :: S).dropLast = x :: S.dropLast := by
  cases S with
  | nil => exact absurd rfl h
  | cons y ys => rfl

theorem getLastD_cons_ne (x : List Char) (S : List (List Char)) (h : S ≠ []) :
    (x :: S).getLastD [] = S.getLastD [] := by
  cases S with
  | nil => exact absurd rfl h
  | cons y ys =>
    induction ys generalizing x y with
    | nil => rfl
    | cons z zs ih => exact ih y z (by simp)

theorem dropLast_append_ne (S T : List (List Char)) (h : T ≠ []) :
    (S ++ T).dropLast = S ++ T.dropLast := by
  induction S with
  | nil => rfl
  | cons x xs ih =>
    have hne : xs ++ T ≠ [] := by
      intro hc
      rcases List.append_eq_nil.mp hc with ⟨_, h2⟩
      exact h h2
    rw [List.cons_append, dropLast_cons_ne x (xs ++ T) hne, ih, List.cons_append]

theorem getLastD_append_ne (S T : List (List Char)) (h : T ≠ []) :
    (S ++ T).getLastD [] = T.getLastD [] := by
  induction S with
  | nil => rfl
  | cons x xs ih =>
    have hne : xs ++ T ≠ [] := by
      intro hc
      rcases List.append_eq_nil.mp hc with ⟨_, h2⟩
      exact h h2
    rw [List.cons_append, getLastD_cons_ne x (xs ++ T) hne, ih]

theorem consHd_ne_nil (x : List Char) (S : List (List Char)) : consHd x S ≠ [] := by
  cases S <;> simp [consHd]

theorem consHd_nil_eq (S : List (List Char)) (h : S ≠ []) : consHd [] S = S := by
  cases S with
  | nil => exact absurd rfl h
  | cons s ss => simp [consHd]

theorem splitNl_cons (c : Char) (cs : List Char) :
    splitNl (c :: cs) = if c == '\n' then [] :: splitNl cs
      else match splitNl cs with | [] => [[c]] | s :: ss => (c :: s) :: ss := rfl

theorem splitNl_append (a b : List Char) :
    splitNl (a ++ b)
      = (splitNl a).dropLast ++ consHd ((splitNl a).getLastD []) (splitNl b) := by
  induction a with
  | nil =>
    rw [List.nil_append]
    have h1 : (splitNl ([] : List Char)).dropLast = [] := rfl
    have h2 : (splitNl ([] : List Char)).getLastD [] = [] := rfl
    rw [h1, h2, consHd_nil_eq _ (splitNl_ne_nil b)]
    simp
  | cons c a2 ih =>
    rw [List.cons_append, splitNl_cons c (a2 ++ b), splitNl_cons c a2]
    cases hc : c == '\n' with
    | true =>
      simp only [if_pos]
      rw [ih, dropLast_cons_ne _ _ (splitNl_ne_nil a2),
        getLastD_cons_ne _ _ (splitNl_ne_nil a2), List.cons_append]
    | false =>
      simp only [Bool.false_eq_true, if_neg, not_false_eq_true]
      cases h2 : splitNl a2 with
      | nil => exact absurd h2 (splitNl_ne_nil a2)
      | cons s2 ss2 =>
        rw [ih, h2]
        cases ss2 with
        | nil =>
          have hd : ([s2] : List (List Char)).dropLast = [] := rfl
          have hg : ([s2] : List (List Char)).getLastD [] = s2 := rfl
          have hd2 : ([c :: s2] : List (List Char)).dropLast = [] := rfl
          have hg2 : ([c :: s2] : List (List Char)).getLastD [] = c :: s2 := rfl
          rw [hd, hg, hd2, hg2, List.nil_append, List.nil_append]
          cases hb : splitNl b with
          | nil => exact absurd hb (splitNl_ne_nil b)
          | cons t ts => simp [consHd]
        | cons y ys =>
          have hd1 : (s2 :: y :: ys).dropLast = s2 :: (y :: ys).dropLast := rfl
          have hd2 : ((c :: s2) :: y :: ys).dropLast = (c :: s2) :: (y :: ys).dropLast := rfl
          have hg1 : (s2 :: y :: ys).getLastD [] = (y :: ys).getLastD [] :=
            getLastD_cons_ne _ _ (by simp)
          have hg2 : ((c :: s2) :: y :: ys).getLastD [] = (y :: ys).getLastD [] :=
            getLastD_cons_ne _ _ (by simp)
          rw [hd1, hd2, hg1, hg2, List.cons_append]
          rfl

theorem innerSegs_cons_eq (seg : List Char) (rest : List (List Char)) :
    innerSegs (seg :: rest)
      = if (trimJS seg).isEmpty then innerSegs rest
        else if (lineDelta (trimJS seg)).2 then ((lineDelta (trimJS seg)).1, true)
        else ((lineDelta (trimJS seg)).1 ++ (innerSegs rest).1, (innerSegs rest).2) := rfl

theorem noDoneSeg_spec (seg : List Char) (hseg : noDoneSeg seg = true)
    (hemp : ¬ (trimJS seg).isEmpty = true) : (lineDelta (trimJS seg)).2 = false := by
  unfold noDoneSeg at hseg
  rcases Bool.or_eq_true_iff.mp hseg with hx | hx
  · exact absurd hx hemp
  · simpa using hx

theorem innerSegs_no_done (S : List (List Char))
    (h : ∀ seg ∈ S, noDoneSeg seg = true) : (innerSegs S).2 = false := by
  induction S with
  | nil => rfl
  | cons seg rest ih =>
    have hseg := h seg (by simp)
    have hrest : ∀ s ∈ rest, noDoneSeg s = true := fun s hs => h s (by simp [hs])
    rw [innerSegs_cons_eq]
    by_cases hemp : (trimJS seg).isEmpty
    · simp only [hemp, if_pos]
      exact ih hrest
    · have hdone := noDoneSeg_spec seg hseg hemp
      simp only [hemp, hdone, if_neg, Bool.not_eq_true, Bool.false_eq_true, not_false_eq_true]
      exact ih hrest

theorem innerSegs_append (S T : List (List Char))
    (h : ∀ seg ∈ S, noDoneSeg seg = true) :
    innerSegs (S ++ T) = ((innerSegs S).1 ++ (innerSegs T).1, (innerSegs T).2) := by
  induction S with
  | nil => simp [innerSegs]
  | cons seg rest ih =>
    have hseg := h seg (by simp)
    have hrest : ∀ s ∈ rest, noDoneSeg s = true := fun s hs => h s (by simp [hs])
    rw [List.cons_append, innerSegs_cons_eq seg (rest ++ T), innerSegs_cons_eq seg rest]
    by_cases hemp : (trimJS seg).isEmpty
    · simp only [hemp, if_pos]
      exact ih hrest
    · have hdone := noDoneSeg_spec seg hseg hemp
      simp only [hemp, hdone, if_neg, Bool.not_eq_true, Bool.false_eq_true, not_false_eq_true]
      rw [ih hrest]
      simp [List.append_assoc]


theorem splitNl_no_nl (l : List Char) (h : ∀ c ∈ l, (c == '\n') = false) :
    splitNl l = [l] := by
  induction l with
  | nil => rfl
  | cons c rest ih =>
    rw [splitNl_cons, h c (by simp)]
    rw [ih (fun d hd => h d (by simp [hd]))]
    simp

theorem lastSeg_no_nl (cs : List Char) :
    ∀ c ∈ (splitNl cs).getLastD [], (c == '\n') = false := by
  induction cs with
  | nil => intro c hc; simp [splitNl] at hc
  | cons d rest ih =>
    intro c hc
    rw [splitNl_cons] at hc
    cases hd : d == '\n' with
    | true =>
      rw [hd] at hc
      simp only [if_pos] at hc
      rw [getLastD_cons_ne _ _ (splitNl_ne_nil rest)] at hc
      exact ih c hc
    | false =>
      rw [hd] at hc
      simp only [Bool.false_eq_true, if_neg, not_false_eq_true] at hc
      cases h2 : splitNl rest with
      | nil => exact absurd h2 (splitNl_ne_nil rest)
      | cons s ss =>
        rw [h2] at hc
        cases ss with
        | nil =>
          have : ([d :: s] : List (List Char)).getLastD [] = d :: s := rfl
          rw [this] at hc
          rcases List.mem_cons.mp hc with hcd | hcs
          · subst hcd; exact hd
          · have hlast : ([s] : List (List Char)).getLastD [] = s := rfl
            exact ih c (by rw [h2, hlast]; exact hcs)
        | cons y ys =>
          rw [getLastD_cons_ne _ _ (by simp)] at hc
          have := getLastD_cons_ne s (y :: ys) (by simp)
          exact ih c (by rw [h2, this]; exact hc)

theorem splitNl_lastSeg (cs : List Char) :
    splitNl ((splitNl cs).getLastD []) = [(splitNl cs).getLastD []] :=
  splitNl_no_nl _ (lastSeg_no_nl cs)

theorem callAiStep_eq (buffer chunk : List Char) :
    callAiStep buffer chunk
      = ((innerSegs (splitNl (buffer ++ chunk)).dropLast).1,
         if (innerSegs (splitNl (buffer ++ chunk)).dropLast).2 then []
         else (splitNl (buffer ++ chunk)).getLastD []) := rfl

theorem callAiRounds_cons_eq (buffer c : List Char) (rest : List (List Char)) :
    callAiRounds buffer (c :: rest)
      = ((callAiStep buffer c).1 ++ (callAiRounds (callAiStep buffer c).2 rest).1,
         (callAiRounds (callAiStep buffer c).2 rest).2) := rfl

theorem callAiRounds_flat :
    ∀ (chunks : List (List Char)) (buffer : List Char), chunks ≠ [] →
      (∀ seg ∈ (splitNl (buffer ++ chunks.flatten)).dropLast, noDoneSeg seg = true) →
      callAiRounds buffer chunks
        = ((innerSegs (splitNl (buffer ++ chunks.flatten)).dropLast).1,
           (splitNl (buffer ++ chunks.flatten)).getLastD []) := by
  intro chunks
  induction chunks with
  | nil => intro buffer hne; exact absurd rfl hne
  | cons c rest ih =>
    intro buffer _ hnd
    have hbig : buffer ++ (c :: rest).flatten = (buffer ++ c) ++ rest.flatten := by
      simp [List.flatten]
    rw [hbig] at hnd ⊢
    have hdecomp : splitNl ((buffer ++ c) ++ rest.flatten)
        = (splitNl (buffer ++ c)).dropLast
          ++ consHd ((splitNl (buffer ++ c)).getLastD []) (splitNl rest.flatten) :=
      splitNl_append (buffer ++ c) rest.flatten
    have hdropBig : (splitNl ((buffer ++ c) ++ rest.flatten)).dropLast
        = (splitNl (buffer ++ c)).dropLast
          ++ (consHd ((splitNl (buffer ++ c)).getLastD []) (splitNl rest.flatten)).dropLast := by
      rw [hdecomp, dropLast_append_ne _ _ (consHd_ne_nil _ _)]
    have hnd1 : ∀ seg ∈ (splitNl (buffer ++ c)).dropLast, noDoneSeg seg = true := by
      intro seg hseg
      exact hnd seg (by rw [hdropBig]; exact List.mem_append_left _ hseg)
    have hdone1 : (innerSegs (splitNl (buffer ++ c)).dropLast).2 = false :=
      innerSegs_no_done _ hnd1
    have hstep : callAiStep buffer c
        = ((innerSegs (splitNl (buffer ++ c)).dropLast).1,
           (splitNl (buffer ++ c)).getLastD []) := by
      rw [callAiStep_eq, hdone1]
      simp
    cases rest with
    | nil =>
      have hjointail : ([] : List (List Char)).flatten = [] := rfl
      rw [hjointail, List.append_nil] at hnd ⊢
      rw [callAiRounds_cons_eq, hstep]
      simp [callAiRounds]
    | cons c2 rest2 =>
      have hLsplit : splitNl ((splitNl (buffer ++ c)).getLastD [])
          = [(splitNl (buffer ++ c)).getLastD []] := splitNl_lastSeg (buffer ++ c)
      have hLjoin : splitNl ((splitNl (buffer ++ c)).getLastD [] ++ (c2 :: rest2).flatten)
          = consHd ((splitNl (buffer ++ c)).getLastD []) (splitNl (c2 :: rest2).flatten) := by
        rw [splitNl_append _ ((c2 :: rest2).flatten), hLsplit]
        have h1 : ([(splitNl (buffer ++ c)).getLastD []] : List (List Char)).dropLast = [] := rfl
        have h2 : ([(splitNl (buffer ++ c)).getLastD []] : List (List Char)).getLastD []
            = (splitNl (buffer ++ c)).getLastD [] := rfl
        rw [h1, h2, List.nil_append]
      have hnd2 : ∀ seg ∈ (splitNl ((splitNl (buffer ++ c)).getLastD []
          ++ (c2 :: rest2).flatten)).dropLast, noDoneSeg seg = true := by
        intro seg hseg
        rw [hLjoin] at hseg
        exact hnd seg (by rw [hdropBig]; exact List.mem_append_right _ hseg)
      have hres := ih ((splitNl (buffer ++ c)).getLastD []) (by simp) hnd2
      have hgl : (splitNl (buffer ++ c ++ (c2 :: rest2).flatten)).getLastD []
          = (consHd ((splitNl (buffer ++ c)).getLastD [])
              (splitNl (c2 :: rest2).flatten)).getLastD [] := by
        rw [hdecomp, getLastD_append_ne _ _ (consHd_ne_nil _ _)]
      rw [callAiRounds_cons_eq, hstep, hres]
      dsimp only
      rw [hdropBig, innerSegs_append _ _ hnd1, hLjoin, hgl]

/-- Claim C9, counterexample.  Aggregation does not end when a record with
`done: true` is observed: the source only clears the pending buffer and
keeps reading, so a record delivered in a later transport chunk still
contributes (`"ab"`), whereas under the claim the aggregate would stop at
`"a"`. -/
theorem callAi_continues_after_done :
    callAiAggregate ["\x7b\"response\":\"a\",\"done\":true\x7d\n", "\x7b\"response\":\"b\"\x7d\n"] = "ab"
    ∧ callAiAggregate ["\x7b\"response\":\"a\",\"done\":true\x7d\n"] = "a"
    ∧ ("ab" : String) ≠ "a" :=
  ⟨rfl, rfl, by decide⟩

/-- Claim C9 (amended).  Per-line aggregation holds as claimed — each
complete line parsing as JSON contributes its string `response` delta, each
non-JSON line is appended raw (trimmed), and the trailing buffer is flushed
at transport close — but aggregation ends only when the transport closes; a
truthy `done` merely discards the current buffer.  Consequently, as long as
no line carries a truthy `done`, the aggregate is invariant under how the
transport slices the byte stream into chunks: any chunking equals the
single-chunk run. -/
theorem callAi_chunk_invariant_no_done (chunks : List String)
    (hnd : ∀ seg ∈ (splitNl ((chunks.map String.data).flatten)).dropLast, noDoneSeg seg = true) :
    callAiAggregate chunks
      = callAiAggregate [String.mk ((chunks.map String.data).flatten)] := by
  cases chunks with
  | nil => rfl
  | cons s ss =>
    have hJdata : ([String.mk (((s :: ss).map String.data).flatten)].map String.data)
        = [((s :: ss).map String.data).flatten] := rfl
    have hJflat : ([((s :: ss).map String.data).flatten] : List (List Char)).flatten
        = ((s :: ss).map String.data).flatten := by simp
    have hnd1 : ∀ seg ∈ (splitNl ([] ++ ((s :: ss).map String.data).flatten)).dropLast,
        noDoneSeg seg = true := by
      intro seg hseg
      rw [List.nil_append] at hseg
      exact hnd seg hseg
    have h1 := callAiRounds_flat ((s :: ss).map String.data) [] (by simp) hnd1
    have hnd2 : ∀ seg ∈ (splitNl ([] ++
        ([((s :: ss).map String.data).flatten] : List (List Char)).flatten)).dropLast,
        noDoneSeg seg = true := by
      intro seg hseg
      rw [List.nil_append, hJflat] at hseg
      exact hnd seg hseg
    have h2 := callAiRounds_flat [((s :: ss).map String.data).flatten] [] (by simp) hnd2
    unfold callAiAggregate
    rw [hJdata, h1, h2]
    simp [hJflat]

/-- Witness for the amended C9 theorem: a stream sliced mid-record and
mid-line aggregates exactly like the unsliced stream. -/
theorem callAi_chunk_invariant_no_done_witness :
    callAiAggregate ["\x7b\"response\":\"a\"\x7d\nxy", "z\n\x7b\"response\":\"b\"\x7d"]
      = callAiAggregate [String.mk (((["\x7b\"response\":\"a\"\x7d\nxy",
          "z\n\x7b\"response\":\"b\"\x7d"] : List String).map String.data).flatten)] :=
  callAi_chunk_invariant_no_done
    ["\x7b\"response\":\"a\"\x7d\nxy", "z\n\x7b\"response\":\"b\"\x7d"] (by decide)

/-- Claim C10, counterexample.  `appendLayout` is not idempotent for every
fragment pair: a header containing `</body>` is split by the footer
insertion (the footer goes before the *first* `</body>`, which lies inside
the just-injected header), so the first result no longer contains the header
verbatim and a second application injects it again. -/
theorem appendLayout_not_idempotent :
    appendLayout "<body></body>" "A</body>B" "F" = "<body>\nAF\n</body>B\n</body>"
    ∧ appendLayout (appendLayout "<body></body>" "A</body>B" "F") "A</body>B" "F"
        ≠ appendLayout "<body></body>" "A</body>B" "F" := by
  refine ⟨rfl, ?_⟩
  decide

/-- Claim C10 (amended).  A second application of `appendLayout` with the
same fragments returns the first result unchanged *provided* the first
result still contains each non-empty trimmed fragment verbatim and has a
`<body>` tag — which the first application guarantees except when a
fragment itself contains body-tag markup (see the counterexample). -/
theorem appendLayout_idempotent_when_contained (html header footer : String)
    (hh : trimS header = "" ∨ includesS (appendLayout html header footer) (trimS header) = true)
    (hf : trimS footer = "" ∨ includesS (appendLayout html header footer) (trimS footer) = true)
    (hb : hasTagWsGt "body" (appendLayout html header footer).data = true) :
    appendLayout (appendLayout html header footer) header footer
      = appendLayout html header footer := by
  set out := appendLayout html header footer with hout
  clear_value out
  unfold appendLayout
  dsimp only
  rw [hb]
  by_cases hA : (trimS header).isEmpty <;> by_cases hB : (trimS footer).isEmpty
  · simp [hA, hB]
  · have h2 : includesS out (trimS footer) = true := by
      rcases hf with h | h
      · rw [h] at hB; exact absurd rfl hB
      · exact h
    simp [hA, hB, h2]
  · have h1 : includesS out (trimS header) = true := by
      rcases hh with h | h
      · rw [h] at hA; exact absurd rfl hA
      · exact h
    simp [hA, hB, h1]
  · have h1 : includesS out (trimS header) = true := by
      rcases hh with h | h
      · rw [h] at hA; exact absurd rfl hA
      · exact h
    have h2 : includesS out (trimS footer) = true := by
      rcases hf with h | h
      · rw [h] at hB; exact absurd rfl hB
      · exact h
    simp [hA, hB, h1, h2]

/-- Witness for the amended C10 theorem at body-free fragments. -/
theorem appendLayout_idempotent_when_contained_witness :
    appendLayout (appendLayout "<body></body>" "<header>H</header>" "<footer>F</footer>")
        "<header>H</header>" "<footer>F</footer>"
      = appendLayout "<body></body>" "<header>H</header>" "<footer>F</footer>" :=
  appendLayout_idempotent_when_contained "<body></body>" "<header>H</header>" "<footer>F</footer>"
    (Or.inr (by decide)) (Or.inr (by decide)) (by decide)
